import Mathlib

/-!
Verification development for the Kenzies Fridge leaderboard backend
(`src/main.py`).

Shallow embedding conventions:

* Python floats are modelled as rationals (`ℚ`).  `round(x, 2)` is modelled
  by `round2`, rounding half away-from-zero ties upward; Python's
  round-half-even differs from this only on exact half-cent ties, where the
  binary floating-point representation already makes the Python result
  representation-dependent.  Every value appearing in the claims is
  tie-free.
* JSON field values stored in a user record are modelled by `JVal`
  (null / bool / number / string); an absent dictionary key is `none` in an
  `Option JVal` field.  Python `float(v)` / `int(v)` coercion — which can
  raise — is modelled by `pyFloat` / `pyInt` returning `Option`
  (`none` = the coercion raises).  String-to-number parsing models plain
  decimal literals with an optional sign and fraction part; exponent forms,
  underscores, surrounding whitespace and inf/nan are omitted, as no claim
  depends on them.
* The persisted ledger document is `Ledger`; Python dicts become
  insertion-ordered association lists (`dictGet` finds the first matching
  key, `dictSet` overwrites in place or appends — Python dicts cannot hold
  duplicate keys, so on the states the code builds the two coincide with
  dict semantics).
* The wall clock is abstracted: handlers take the current month key, the
  previous month key and the ISO timestamp as explicit string parameters
  (the code computes them via `_get_month_key` / `_prev_month_key` /
  `_now_iso`).
* Each HTTP handler becomes a function from its inputs and the persisted
  document to the pair of the document as left behind by the handler
  (persisted by `_write_db`; handlers that raise before `_write_db` leave
  the input document) and the JSON response, with `Except PyErr` recording
  an HTTP error or an uncaught Python exception.
* `list.sort(key=…, reverse=True)` (a stable descending sort) is embedded
  as the stable insertion sort `sortDescBy`.
-/

/-- JSON-ish dynamic value stored in a record field. -/
inductive JVal where
  | null : JVal
  | bool : Bool → JVal
  | num : ℚ → JVal
  | str : String → JVal
deriving DecidableEq

/-- Stored user record: the dict
`{nickname, balance, last_update, trades, wins, period_start_balance}`;
`none` means the key is absent. -/
structure UserRec where
  nickname : Option JVal := none
  balance : Option JVal := none
  last_update : Option JVal := none
  trades : Option JVal := none
  wins : Option JVal := none
  period_start_balance : Option JVal := none
deriving DecidableEq

/-- One podium line `{position, user_id, nickname, balance}`. -/
structure PodiumEntry where
  position : ℕ
  user_id : String
  nickname : JVal
  balance : ℚ
deriving DecidableEq

/-- Stored monthly winners entry `{podium, closed_at}`. -/
structure WinnersEntry where
  podium : List PodiumEntry
  closed_at : String
deriving DecidableEq

/-- The persisted ledger document (`data/leaderboard.json`). -/
structure Ledger where
  users : List (String × UserRec)
  monthly_winners : List (String × WinnersEntry)
  last_month_closed : Option String
deriving DecidableEq

/-- Pydantic body of `POST /api/user/{user_id}` (fields already coerced to
their annotated types by the model layer). -/
structure UserUpdate where
  nickname : Option String := none
  balance : Option ℚ := none
  trades : Option ℤ := none
  wins : Option ℤ := none
  period_start_balance : Option ℚ := none
deriving DecidableEq

/-- Pydantic body of `POST /api/user/{user_id}/trade`. -/
structure TradeRecord where
  result : String
  amount : Option ℚ := none
deriving DecidableEq

/-- Outcome of a handler: an `HTTPException(code, detail)` or an uncaught
Python exception (`exc`, surfacing as a server error). -/
inductive PyErr where
  | http : ℕ → String → PyErr
  | exc : PyErr
deriving DecidableEq

/-- Result dict of `compute_user_metrics`. -/
structure Metrics where
  performance : ℚ
  win_rate : ℚ
  trades_this_period : ℤ
  wins : ℤ
  period_start_balance : ℚ
  balance : ℚ
deriving DecidableEq

/-- Merged user view returned by `GET/POST /api/user/{user_id}` and the
trade endpoint. -/
structure UserView where
  user_id : String
  nickname : JVal
  balance : ℚ
  performance : ℚ
  win_rate : ℚ
  trades_this_period : ℤ
  wins : ℤ
  period_start_balance : ℚ
  last_update : JVal
deriving DecidableEq

/-- One row of the `GET /api/leaderboard` response. -/
structure LBEntry where
  user_id : String
  nickname : JVal
  balance : ℚ
  performance : ℚ
  win_rate : ℚ
  trades_this_period : ℤ
deriving DecidableEq

/-- Response of `GET /api/leaderboard`. -/
structure LBResp where
  leaderboard : List LBEntry
  timestamp : String
deriving DecidableEq

/-- Response of `POST /api/close_month`. -/
inductive CloseResp where
  | alreadyClosed : String → CloseResp
  | closed : String → List PodiumEntry → CloseResp
deriving DecidableEq

/-- Default starting balance (`START_BALANCE = 5000.0`). -/
def START_BALANCE : ℚ := 5000

/-- Rounding to 2 decimal places, modelling Python `round(x, 2)` (see the
module docstring for the tie-handling caveat). -/
def round2 (q : ℚ) : ℚ := (⌊q * 100 + 1 / 2⌋ : ℚ) / 100

/-- Decimal digit run to a natural number; `none` when a non-digit occurs. -/
def digitsToNat : List Char → ℕ → Option ℕ
  | [], acc => some acc
  | c :: cs, acc =>
    if c.isDigit then digitsToNat cs (acc * 10 + (c.toNat - 48)) else none

/-- Nonempty all-digit run parsed as a natural number. -/
def parseNatStr (cs : List Char) : Option ℕ :=
  if cs.isEmpty then none else digitsToNat cs 0

/-- Strip a leading sign, reporting whether it was `-`. -/
def parseSign : List Char → Bool × List Char
  | '-' :: cs => (true, cs)
  | '+' :: cs => (false, cs)
  | cs => (false, cs)

/-- Split at the first `.`, if any. -/
def splitDot : List Char → List Char × Option (List Char)
  | [] => ([], none)
  | '.' :: cs => ([], some cs)
  | c :: cs =>
    let r := splitDot cs
    (c :: r.1, r.2)

/-- Python `int(s)` on a string: optional sign then decimal digits. -/
def pyIntOfStr (s : String) : Option ℤ :=
  let p := parseSign s.data
  (parseNatStr p.2).map (fun n => if p.1 then -(n : ℤ) else (n : ℤ))

/-- Python `float(s)` on a string: optional sign, then `digits`,
`digits.digits`, `digits.` or `.digits`. -/
def pyFloatOfStr (s : String) : Option ℚ :=
  let p := parseSign s.data
  let signed : ℚ → ℚ := fun q => if p.1 then -q else q
  match splitDot p.2 with
  | (intPart, none) => (parseNatStr intPart).map (fun n => signed n)
  | (intPart, some fracPart) =>
    if intPart.isEmpty && fracPart.isEmpty then none
    else
      match digitsToNat intPart 0, digitsToNat fracPart 0 with
      | some i, some f =>
        some (signed ((i : ℚ) + (f : ℚ) / (10 : ℚ) ^ fracPart.length))
      | _, _ => none

/-- Python truthiness of a `JVal`. -/
def pyTruthy : JVal → Bool
  | .null => false
  | .bool b => b
  | .num q => decide (q ≠ 0)
  | .str s => decide (s ≠ "")

/-- Integer truncation toward zero, as Python `int()` applied to a float. -/
def ratTrunc (q : ℚ) : ℤ := if 0 ≤ q then ⌊q⌋ else -⌊-q⌋

/-- Python `float(v)`; `none` when the call raises. -/
def pyFloat : JVal → Option ℚ
  | .null => none
  | .bool b => some (if b then 1 else 0)
  | .num q => some q
  | .str s => pyFloatOfStr s

/-- Python `int(v)`; `none` when the call raises. -/
def pyInt : JVal → Option ℤ
  | .null => none
  | .bool b => some (if b then 1 else 0)
  | .num q => some (ratTrunc q)
  | .str s => pyIntOfStr s

/-- Python ASCII-range `str.lower()` (the code only compares against the
ASCII literals "win"/"lose"). -/
def strLower (s : String) : String := String.mk (s.data.map Char.toLower)

/-- Python code-point slice `s[:n]`. -/
def strTake (s : String) (n : ℕ) : String := String.mk (s.data.take n)

/-- First-match lookup in an insertion-ordered dict. -/
def dictGet {α : Type} : List (String × α) → String → Option α
  | [], _ => none
  | p :: rest, k => if p.1 = k then some p.2 else dictGet rest k

/-- Python dict assignment `d[k] = v`: overwrite in place, else append. -/
def dictSet {α : Type} : List (String × α) → String → α → List (String × α)
  | [], k, v => [(k, v)]
  | p :: rest, k, v => if p.1 = k then (k, v) :: rest else p :: dictSet rest k v

/-- Coercion `try: float(rec.get(key, dflt)) except: dflt` used for balance
fields (the get-default and the except-default coincide in the source). -/
def getF (field : Option JVal) (dflt : ℚ) : ℚ :=
  match field with
  | none => dflt
  | some v => (pyFloat v).getD dflt

/-- Expression `rec.get(key, 0) or 0`: absent or falsy becomes `0`. -/
def orZeroInt (field : Option JVal) : JVal :=
  match field with
  | none => .num 0
  | some v => if pyTruthy v then v else .num 0

/-- Stable descending insertion: place `x` before the first element whose
key is `≤ key x`, keeping earlier greater-keyed elements in front. -/
def insertDescBy {α : Type} (key : α → ℚ) (x : α) : List α → List α
  | [] => [x]
  | y :: ys => if key y ≤ key x then x :: y :: ys else y :: insertDescBy key x ys

/-- Stable descending sort by `key`, embedding Python's stable
`list.sort(key=…, reverse=True)`. -/
def sortDescBy {α : Type} (key : α → ℚ) : List α → List α
  | [] => []
  | x :: xs => insertDescBy key x (sortDescBy key xs)

/-- Intermediate `arr` of `compute_podium_snapshot`:
`(uid, nickname, float-coerced balance)` per user, in insertion order. -/
def podiumArr (users : List (String × UserRec)) : List (String × JVal × ℚ) :=
  users.map (fun p => (p.1, p.2.nickname.getD (.str ""), getF p.2.balance START_BALANCE))

/-- Loop `for i in range(…)` emitting podium entries with 1-based
positions. -/
def posMap (i : ℕ) : List (String × JVal × ℚ) → List PodiumEntry
  | [] => []
  | x :: xs => ⟨i, x.1, x.2.1, round2 x.2.2⟩ :: posMap (i + 1) xs

/-- `compute_podium_snapshot(users, top_n=3)`. -/
def compute_podium_snapshot (users : List (String × UserRec)) (top_n : ℕ := 3) :
    List PodiumEntry :=
  posMap 1 ((sortDescBy (fun x => x.2.2) (podiumArr users)).take top_n)

/-- `compute_user_metrics(user_record)`; `none` when it raises (the bare
`int(...)` calls on the trades/wins fields are not inside a try block). -/
def compute_user_metrics (u : UserRec) : Option Metrics :=
  let balance := getF u.balance START_BALANCE
  let start := getF u.period_start_balance START_BALANCE
  let performance := if start = 0 then (0 : ℚ) else (balance - start) / start * 100
  match pyInt (orZeroInt u.trades) with
  | none => none
  | some trades =>
    match pyInt (orZeroInt u.wins) with
    | none => none
    | some wins =>
      let win_rate := if trades ≤ 0 then (0 : ℚ) else (wins : ℚ) / (trades : ℚ) * 100
      some ⟨round2 performance, round2 win_rate, trades, wins, round2 start, round2 balance⟩

/-- Default record inserted by `users.setdefault(user_id, {...})`. -/
def defaultUser : UserRec :=
  { nickname := some (.str "")
    balance := some (.num START_BALANCE)
    last_update := some .null
    trades := some (.num 0)
    wins := some (.num 0)
    period_start_balance := some (.num START_BALANCE) }

/-- Normalisation block `u.setdefault("trades", 0)` … shared by the update
and trade handlers. -/
def ensureFields (u : UserRec) : UserRec :=
  { u with
    trades := some (u.trades.getD (.num 0))
    wins := some (u.wins.getD (.num 0))
    period_start_balance := some (u.period_start_balance.getD (.num START_BALANCE))
    balance := some (u.balance.getD (.num START_BALANCE)) }

/-- Field-by-field application of a `UserUpdate` (the `try` blocks around
`float`/`int` cannot fire because the pydantic layer already delivered
typed values; the non-raising branch is therefore the faithful embedding). -/
def applyUpdate (u : UserRec) (upd : UserUpdate) : UserRec :=
  { u with
    nickname := match upd.nickname with
      | some s => some (.str (strTake s 40))
      | none => u.nickname
    balance := match upd.balance with
      | some b => some (.num (round2 b))
      | none => u.balance
    trades := match upd.trades with
      | some n => some (.num (n : ℚ))
      | none => u.trades
    wins := match upd.wins with
      | some n => some (.num (n : ℚ))
      | none => u.wins
    period_start_balance := match upd.period_start_balance with
      | some b => some (.num (round2 b))
      | none => u.period_start_balance }

/-- Month-rollover block at the top of `post_user` (lines 232-240): close
the previous month if this month has not been evaluated yet, writing a
snapshot only when the previous month is absent and the podium is
nonempty. -/
def rollover (cm pm now : String) (db : Ledger) : Ledger :=
  if db.last_month_closed = some cm then db
  else
    let db1 :=
      if (dictGet db.monthly_winners pm).isSome then db
      else
        let podium := compute_podium_snapshot db.users 3
        if podium = [] then db
        else { db with monthly_winners := dictSet db.monthly_winners pm ⟨podium, now⟩ }
    { db1 with last_month_closed := some cm }

/-- View built from a freshly written record plus its metrics, shared by the
update and trade handlers. -/
def mkView (uid : String) (u : UserRec) (m : Metrics) : UserView :=
  ⟨uid, u.nickname.getD (.str ""), m.balance, m.performance, m.win_rate,
    m.trades_this_period, m.wins, m.period_start_balance, u.last_update.getD .null⟩

/-- `POST /api/user/{user_id}` (`post_user`): rollover, create-or-update,
persist, then respond with the merged view.  The metrics call sits after
`_write_db`, so a metrics exception still leaves the written document. -/
def post_user (uid : String) (upd : UserUpdate) (cm pm now : String) (db : Ledger) :
    Ledger × Except PyErr UserView :=
  let db1 := rollover cm pm now db
  let u0 := (dictGet db1.users uid).getD defaultUser
  let u2 := { ensureFields (applyUpdate u0 upd) with last_update := some (.str now) }
  let db2 := { db1 with users := dictSet db1.users uid u2 }
  match compute_user_metrics u2 with
  | none => (db2, .error .exc)
  | some m => (db2, .ok (mkView uid u2 m))

/-- Trade application, lines 320-346 of `record_trade`: validity check,
counter increments (`int(u.get(...))` without a try block), optional
balance adjustment; `none` marks an uncaught coercion exception. -/
def tradeApply (u : UserRec) (res : String) (amount : Option ℚ) (now : String) :
    Option UserRec :=
  match pyInt (u.trades.getD (.num 0)) with
  | none => none
  | some t =>
    let u1 := { u with trades := some (.num ((t : ℚ) + 1)) }
    let step2 : Option UserRec :=
      if res = "win" then
        match pyInt (u1.wins.getD (.num 0)) with
        | none => none
        | some w => some { u1 with wins := some (.num ((w : ℚ) + 1)) }
      else some u1
    match step2 with
    | none => none
    | some u2 =>
      let step3 : Option UserRec :=
        match amount with
        | none => some u2
        | some amt =>
          match pyFloat (u2.balance.getD (.num START_BALANCE)) with
          | none => none
          | some b =>
            let nb := round2 (if res = "win" then b + amt else b - amt)
            some { u2 with balance := some (.num nb) }
      match step3 with
      | none => none
      | some u3 => some { u3 with last_update := some (.str now) }

/-- `POST /api/user/{user_id}/trade` (`record_trade`).  Everything that can
raise happens before `_write_db`, except the final metrics call, which on a
just-written record (numeric trades/wins) cannot raise; an invalid result
string raises `HTTPException(400)` with nothing persisted. -/
def record_trade (uid : String) (tr : TradeRecord) (now : String) (db : Ledger) :
    Ledger × Except PyErr UserView :=
  let u0 := ensureFields ((dictGet db.users uid).getD defaultUser)
  let res := strLower tr.result
  if res = "win" ∨ res = "lose" then
    match tradeApply u0 res tr.amount now with
    | none => (db, .error .exc)
    | some u4 =>
      let db' := { db with users := dictSet db.users uid u4 }
      match compute_user_metrics u4 with
      | none => (db', .error .exc)
      | some m => (db', .ok (mkView uid u4 m))
  else (db, .error (.http 400 "result must be \"win\" or \"lose\""))

/-- `POST /api/close_month` (`post_close_month`): early return when the
previous month is already present; otherwise store the snapshot
unconditionally (note: no emptiness guard on the podium) and mark the
current month processed. -/
def post_close_month (cm pm now : String) (db : Ledger) : Ledger × CloseResp :=
  if (dictGet db.monthly_winners pm).isSome then (db, .alreadyClosed pm)
  else
    let podium := compute_podium_snapshot db.users 3
    ({ db with
        monthly_winners := dictSet db.monthly_winners pm ⟨podium, now⟩
        last_month_closed := some cm },
      .closed pm podium)

/-- Truthiness of a user record, as in `if user:` — an empty dict is falsy. -/
def recTruthy (u : UserRec) : Bool :=
  u.nickname.isSome || u.balance.isSome || u.last_update.isSome ||
    u.trades.isSome || u.wins.isSome || u.period_start_balance.isSome

/-- `GET /api/leaderboard` (`get_leaderboard`): metrics per user in
insertion order (the first metrics exception aborts the request), stable
descending sort by balance, slice clamped to `[0, 1000]`. -/
def get_leaderboard (limit : ℤ) (now : String) (db : Ledger) :
    Ledger × Except PyErr LBResp :=
  match db.users.mapM (fun p =>
    (compute_user_metrics p.2).map (fun m =>
      LBEntry.mk p.1 (p.2.nickname.getD (.str "")) m.balance m.performance
        m.win_rate m.trades_this_period)) with
  | none => (db, .error .exc)
  | some arr =>
    (db, .ok ⟨(sortDescBy (fun e => e.balance) arr).take (max 0 (min limit 1000)).toNat, now⟩)

/-- `GET /api/user/{user_id}` (`get_user`): merged view of a truthy stored
record, else the synthesized default view. -/
def get_user (uid : String) (db : Ledger) : Ledger × Except PyErr UserView :=
  match dictGet db.users uid with
  | some u =>
    if recTruthy u then
      match compute_user_metrics u with
      | none => (db, .error .exc)
      | some m => (db, .ok (mkView uid u m))
    else
      (db, .ok ⟨uid, .str "", round2 START_BALANCE, 0, 0, 0, 0, round2 START_BALANCE, .null⟩)
  | none =>
    (db, .ok ⟨uid, .str "", round2 START_BALANCE, 0, 0, 0, 0, round2 START_BALANCE, .null⟩)

/-- `GET /api/winners/{month}` (`get_winners`). -/
def get_winners (month : String) (db : Ledger) :
    Ledger × Except PyErr (String × WinnersEntry) :=
  match dictGet db.monthly_winners month with
  | none => (db, .error (.http 404 "No winners for that month"))
  | some w => (db, .ok (month, w))

/-- `sorted(mw.keys())[-1]`: the lexicographically greatest key. -/
def maxKey : List String → String → String
  | [], acc => acc
  | k :: ks, acc => maxKey ks (if acc < k then k else acc)

/-- `GET /api/winners` (`get_latest_winners`). -/
def get_latest_winners (db : Ledger) :
    Ledger × Option (String × WinnersEntry) :=
  match db.monthly_winners with
  | [] => (db, none)
  | p :: rest =>
    let last := maxKey (rest.map (fun q => q.1)) p.1
    (db, (dictGet db.monthly_winners last).map (fun w => (last, w)))

/-- Empty initial document created by `_read_db` on first use. -/
def emptyDb : Ledger := ⟨[], [], none⟩

/-- Field value that is a non-negative integer, as the spec's
"non-negative integer counter". -/
def isNonnegIntJ : Option JVal → Bool
  | some (.num q) => decide (0 ≤ q) && decide (q.den = 1)
  | _ => false

/-- Claimed invariant of C9: every stored trades/wins field is a
non-negative integer. -/
def InvC9 (db : Ledger) : Prop :=
  ∀ p ∈ db.users, isNonnegIntJ p.2.trades = true ∧ isNonnegIntJ p.2.wins = true

/-- One public mutating operation, with arbitrary request data and clock. -/
inductive Step : Ledger → Ledger → Prop where
  | user : ∀ uid upd cm pm now db, Step db (post_user uid upd cm pm now db).1
  | trade : ∀ uid tr now db, Step db (record_trade uid tr now db).1
  | close : ∀ cm pm now db, Step db (post_close_month cm pm now db).1

/-- Documents reachable from the empty document via the public mutating
operations. -/
inductive Reachable : Ledger → Prop where
  | init : Reachable emptyDb
  | step : ∀ db db', Reachable db → Step db db' → Reachable db'

/-- Mutating operation whose user-update bodies carry only non-negative
trades/wins values (trade and close requests are unrestricted). -/
inductive StepN : Ledger → Ledger → Prop where
  | user : ∀ uid upd cm pm now db,
      (∀ n, upd.trades = some n → 0 ≤ n) →
      (∀ n, upd.wins = some n → 0 ≤ n) →
      StepN db (post_user uid upd cm pm now db).1
  | trade : ∀ uid tr now db, StepN db (record_trade uid tr now db).1
  | close : ∀ cm pm now db, StepN db (post_close_month cm pm now db).1

/-- Reachability under `StepN`. -/
inductive ReachableN : Ledger → Prop where
  | init : ReachableN emptyDb
  | step : ∀ db db', ReachableN db → StepN db db' → ReachableN db'

/-- Client-error detector: an HTTP status in the 4xx range. -/
def isClientError {α : Type} : Except PyErr α → Bool
  | .error (.http c _) => decide (400 ≤ c ∧ c < 500)
  | _ => false

lemma round2_mono {a b : ℚ} (h : a ≤ b) : round2 a ≤ round2 b := by
  unfold round2
  have h1 : ⌊a * 100 + 1 / 2⌋ ≤ ⌊b * 100 + 1 / 2⌋ := Int.floor_le_floor (by linarith)
  have h2 : ((⌊a * 100 + 1 / 2⌋ : ℤ) : ℚ) ≤ ((⌊b * 100 + 1 / 2⌋ : ℤ) : ℚ) := by
    exact_mod_cast h1
  exact div_le_div_of_nonneg_right h2 (by norm_num)

lemma floor_half : ⌊(1 / 2 : ℚ)⌋ = 0 := by
  rw [Int.floor_eq_iff]
  norm_num

lemma round2_intCast (n : ℤ) : round2 ((n : ℚ)) = (n : ℚ) := by
  unfold round2
  have h : (n : ℚ) * 100 + 1 / 2 = ((100 * n : ℤ) : ℚ) + 1 / 2 := by push_cast; ring
  rw [h, Int.floor_int_add, floor_half, add_zero]
  push_cast
  ring

lemma round2_natCast (n : ℕ) : round2 ((n : ℚ)) = (n : ℚ) := by
  have h := round2_intCast (n : ℤ)
  push_cast at h
  exact h

lemma dictGet_dictSet_self {α : Type} (l : List (String × α)) (k : String) (v : α) :
    dictGet (dictSet l k v) k = some v := by
  induction l with
  | nil => simp [dictGet, dictSet]
  | cons p rest ih =>
    by_cases h : p.1 = k
    · simp [dictSet, dictGet, h]
    · simp [dictSet, dictGet, h, ih]

lemma dictGet_dictSet_ne {α : Type} (l : List (String × α)) (k k' : String) (v : α)
    (h : k' ≠ k) : dictGet (dictSet l k v) k' = dictGet l k' := by
  induction l with
  | nil => simp [dictGet, dictSet, Ne.symm h]
  | cons p rest ih =>
    by_cases hp : p.1 = k
    · subst hp
      simp [dictSet, dictGet, Ne.symm h, ih]
    · by_cases hp' : p.1 = k'
      · simp [dictSet, dictGet, hp, hp', h]
      · simp [dictSet, dictGet, hp, hp', ih]

lemma mem_dictSet {α : Type} (l : List (String × α)) (k : String) (v : α)
    (p : String × α) (h : p ∈ dictSet l k v) : p = (k, v) ∨ p ∈ l := by
  induction l with
  | nil => simpa [dictSet] using h
  | cons q rest ih =>
    by_cases hq : q.1 = k
    · rw [dictSet, if_pos hq] at h
      rcases List.mem_cons.mp h with rfl | hr
      · exact Or.inl rfl
      · exact Or.inr (List.mem_cons_of_mem q hr)
    · rw [dictSet, if_neg hq] at h
      rcases List.mem_cons.mp h with h1 | hr
      · exact Or.inr (by rw [h1]; exact List.mem_cons_self q rest)
      · rcases ih hr with h1 | h2
        · exact Or.inl h1
        · exact Or.inr (List.mem_cons_of_mem q h2)

lemma dictGet_mem {α : Type} (l : List (String × α)) (k : String) (v : α)
    (h : dictGet l k = some v) : (k, v) ∈ l := by
  induction l with
  | nil => simp [dictGet] at h
  | cons q rest ih =>
    obtain ⟨q1, q2⟩ := q
    by_cases hq : q1 = k
    · rw [dictGet, if_pos (show (q1, q2).1 = k from hq)] at h
      obtain rfl := Option.some.inj h
      subst hq
      exact List.mem_cons_self _ _
    · rw [dictGet, if_neg (show ¬(q1, q2).1 = k from hq)] at h
      exact List.mem_cons_of_mem _ (ih h)

lemma mem_insertDescBy {α : Type} (key : α → ℚ) (x : α) (l : List α) (z : α) :
    z ∈ insertDescBy key x l ↔ z = x ∨ z ∈ l := by
  induction l with
  | nil => simp [insertDescBy]
  | cons y ys ih =>
    by_cases h : key y ≤ key x
    · simp only [insertDescBy, if_pos h, List.mem_cons]
    · simp only [insertDescBy, if_neg h, List.mem_cons, ih]
      tauto

lemma length_insertDescBy {α : Type} (key : α → ℚ) (x : α) (l : List α) :
    (insertDescBy key x l).length = l.length + 1 := by
  induction l with
  | nil => rfl
  | cons y ys ih =>
    by_cases h : key y ≤ key x
    · simp [insertDescBy, if_pos h]
    · simp [insertDescBy, if_neg h, ih]

lemma pairwise_insertDescBy {α : Type} (key : α → ℚ) (x : α) (l : List α)
    (h : l.Pairwise (fun a b => key b ≤ key a)) :
    (insertDescBy key x l).Pairwise (fun a b => key b ≤ key a) := by
  induction l with
  | nil => simp [insertDescBy]
  | cons y ys ih =>
    rw [List.pairwise_cons] at h
    by_cases hc : key y ≤ key x
    · rw [insertDescBy, if_pos hc]
      refine List.Pairwise.cons ?_ (List.Pairwise.cons h.1 h.2)
      intro z hz
      rcases List.mem_cons.mp hz with rfl | hz'
      · exact hc
      · exact le_trans (h.1 z hz') hc
    · rw [insertDescBy, if_neg hc]
      refine List.Pairwise.cons ?_ (ih h.2)
      intro z hz
      rcases (mem_insertDescBy key x ys z).mp hz with rfl | hz'
      · exact (not_le.mp hc).le
      · exact h.1 z hz'

lemma filter_insertDescBy {α : Type} (key : α → ℚ) (b : ℚ) (x : α) (l : List α) :
    (insertDescBy key x l).filter (fun z => decide (key z = b)) =
      if key x = b then x :: l.filter (fun z => decide (key z = b))
      else l.filter (fun z => decide (key z = b)) := by
  induction l with
  | nil =>
    by_cases hx : key x = b <;> simp [insertDescBy, List.filter, hx]
  | cons y ys ih =>
    by_cases hc : key y ≤ key x
    · rw [insertDescBy, if_pos hc]
      by_cases hx : key x = b <;> simp [List.filter_cons, hx]
    · rw [insertDescBy, if_neg hc]
      by_cases hy : key y = b
      · have hx : ¬ key x = b := by
          intro hx
          exact hc (by rw [hx, hy])
        simp [List.filter_cons, hy, hx, ih]
      · by_cases hx : key x = b <;> simp [List.filter_cons, hy, hx, ih]

lemma length_sortDescBy {α : Type} (key : α → ℚ) (l : List α) :
    (sortDescBy key l).length = l.length := by
  induction l with
  | nil => rfl
  | cons x xs ih => rw [sortDescBy, length_insertDescBy, ih, List.length_cons]

lemma pairwise_sortDescBy {α : Type} (key : α → ℚ) (l : List α) :
    (sortDescBy key l).Pairwise (fun a b => key b ≤ key a) := by
  induction l with
  | nil => simp [sortDescBy]
  | cons x xs ih => exact pairwise_insertDescBy key x _ ih

lemma filter_sortDescBy {α : Type} (key : α → ℚ) (b : ℚ) (l : List α) :
    (sortDescBy key l).filter (fun z => decide (key z = b)) =
      l.filter (fun z => decide (key z = b)) := by
  induction l with
  | nil => rfl
  | cons x xs ih =>
    rw [sortDescBy, filter_insertDescBy, ih]
    by_cases hx : key x = b <;> simp [List.filter_cons, hx]

lemma length_posMap (i : ℕ) (l : List (String × JVal × ℚ)) :
    (posMap i l).length = l.length := by
  induction l generalizing i with
  | nil => rfl
  | cons x xs ih => simp [posMap, ih]

lemma posMap_positions (i : ℕ) (l : List (String × JVal × ℚ)) :
    (posMap i l).map (fun e => e.position) = List.range' i l.length := by
  induction l generalizing i with
  | nil => rfl
  | cons x xs ih =>
    rw [posMap, List.map_cons, ih, List.length_cons, List.range'_succ]

lemma mem_posMap (i : ℕ) (l : List (String × JVal × ℚ)) (e : PodiumEntry)
    (h : e ∈ posMap i l) : ∃ x ∈ l, e.balance = round2 x.2.2 := by
  induction l generalizing i with
  | nil => simp [posMap] at h
  | cons x xs ih =>
    rw [posMap] at h
    rcases List.mem_cons.mp h with rfl | hr
    · exact ⟨x, List.mem_cons_self x xs, rfl⟩
    · rcases ih (i + 1) hr with ⟨y, hy, he⟩
      exact ⟨y, List.mem_cons_of_mem x hy, he⟩

lemma pairwise_posMap (i : ℕ) (l : List (String × JVal × ℚ))
    (h : l.Pairwise (fun a b => b.2.2 ≤ a.2.2)) :
    (posMap i l).Pairwise (fun a b => b.balance ≤ a.balance) := by
  induction l generalizing i with
  | nil => simp [posMap]
  | cons x xs ih =>
    rw [List.pairwise_cons] at h
    rw [posMap]
    refine List.Pairwise.cons ?_ (ih (i + 1) h.2)
    intro e he
    rcases mem_posMap (i + 1) xs e he with ⟨y, hy, hb⟩
    rw [hb]
    exact round2_mono (h.1 y hy)

lemma rollover_users (cm pm now : String) (db : Ledger) :
    (rollover cm pm now db).users = db.users := by
  unfold rollover
  by_cases h1 : db.last_month_closed = some cm
  · simp [h1]
  · by_cases h2 : (dictGet db.monthly_winners pm).isSome = true
    · simp [h1, h2]
    · by_cases h3 : compute_podium_snapshot db.users 3 = []
      · simp [h1, h2, h3]
      · simp [h1, h2, h3]

lemma rollover_last (cm pm now : String) (db : Ledger) :
    (rollover cm pm now db).last_month_closed = some cm ∨ rollover cm pm now db = db := by
  unfold rollover
  by_cases h1 : db.last_month_closed = some cm
  · right
    simp [h1]
  · left
    by_cases h2 : (dictGet db.monthly_winners pm).isSome = true
    · simp [h1, h2]
    · by_cases h3 : compute_podium_snapshot db.users 3 = []
      · simp [h1, h2, h3]
      · simp [h1, h2, h3]

lemma rollover_winners_get (cm pm now : String) (db : Ledger) (m : String)
    (e : WinnersEntry) (h : dictGet db.monthly_winners m = some e) :
    dictGet (rollover cm pm now db).monthly_winners m = some e := by
  unfold rollover
  by_cases h1 : db.last_month_closed = some cm
  · simpa [h1] using h
  · by_cases h2 : (dictGet db.monthly_winners pm).isSome = true
    · simpa [h1, h2] using h
    · by_cases h3 : compute_podium_snapshot db.users 3 = []
      · simpa [h1, h2, h3] using h
      · have hne : m ≠ pm := by
          intro hmp
          rw [hmp] at h
          rw [h] at h2
          exact h2 rfl
        simp only [h1, h2, h3]
        simpa [dictGet_dictSet_ne _ _ _ _ hne] using h

lemma post_user_fst (uid : String) (upd : UserUpdate) (cm pm now : String) (db : Ledger) :
    (post_user uid upd cm pm now db).1 =
      { rollover cm pm now db with
        users := dictSet (rollover cm pm now db).users uid
          { ensureFields (applyUpdate
              ((dictGet (rollover cm pm now db).users uid).getD defaultUser) upd) with
            last_update := some (.str now) } } := by
  unfold post_user
  dsimp only
  split <;> rfl

lemma post_user_winners (uid : String) (upd : UserUpdate) (cm pm now : String)
    (db : Ledger) :
    ((post_user uid upd cm pm now db).1).monthly_winners =
      (rollover cm pm now db).monthly_winners := by
  rw [post_user_fst]

lemma record_trade_winners (uid : String) (tr : TradeRecord) (now : String)
    (db : Ledger) :
    ((record_trade uid tr now db).1).monthly_winners = db.monthly_winners := by
  unfold record_trade
  dsimp only
  split
  · split
    · rfl
    · split <;> rfl
  · rfl

lemma record_trade_last (uid : String) (tr : TradeRecord) (now : String)
    (db : Ledger) :
    ((record_trade uid tr now db).1).last_month_closed = db.last_month_closed := by
  unfold record_trade
  dsimp only
  split
  · split
    · rfl
    · split <;> rfl
  · rfl

lemma get_leaderboard_fst (limit : ℤ) (now : String) (db : Ledger) :
    (get_leaderboard limit now db).1 = db := by
  unfold get_leaderboard
  split <;> rfl

lemma get_user_fst (uid : String) (db : Ledger) : (get_user uid db).1 = db := by
  unfold get_user
  split
  · split
    · split <;> rfl
    · rfl
  · rfl

lemma get_winners_fst (m : String) (db : Ledger) : (get_winners m db).1 = db := by
  unfold get_winners
  split <;> rfl

lemma get_latest_winners_fst (db : Ledger) : (get_latest_winners db).1 = db := by
  unfold get_latest_winners
  split <;> rfl

/-- Document with one closed month, used to witness C1. -/
def c1db : Ledger := ⟨[], [("2026-09", ⟨[], "t0"⟩)], none⟩

/-- C1: month closing is idempotent — when the previous month's key is
already present in the monthly winners mapping, a manual `close_month`
returns status "already_closed" and leaves the whole document (hence the
stored podium and `closed_at`) unchanged; and no public mutating operation
(manual close, user update with its rollover, trade record) ever
overwrites an existing monthly winners entry. -/
theorem C1_close_month_idempotent :
    (∀ cm pm now db, (dictGet db.monthly_winners pm).isSome = true →
      post_close_month cm pm now db = (db, .alreadyClosed pm)) ∧
    (∀ cm pm now db m e, dictGet db.monthly_winners m = some e →
      dictGet ((post_close_month cm pm now db).1).monthly_winners m = some e) ∧
    (∀ uid upd cm pm now db m e, dictGet db.monthly_winners m = some e →
      dictGet ((post_user uid upd cm pm now db).1).monthly_winners m = some e) ∧
    (∀ uid tr now db m e, dictGet db.monthly_winners m = some e →
      dictGet ((record_trade uid tr now db).1).monthly_winners m = some e) := by
  refine ⟨?_, ?_, ?_, ?_⟩
  · intro cm pm now db h
    unfold post_close_month
    rw [if_pos h]
  · intro cm pm now db m e h
    unfold post_close_month
    by_cases hp : (dictGet db.monthly_winners pm).isSome = true
    · simpa [hp] using h
    · have hne : m ≠ pm := by
        intro hmp
        rw [hmp] at h
        rw [h] at hp
        exact hp rfl
      simp only [hp, if_false, Bool.false_eq_true]
      simpa [dictGet_dictSet_ne _ _ _ _ hne] using h
  · intro uid upd cm pm now db m e h
    rw [post_user_winners]
    exact rollover_winners_get cm pm now db m e h
  · intro uid tr now db m e h
    rw [record_trade_winners]
    exact h

/-- C1 witness: with month 2026-09 already closed, the manual close is a
no-op returning "already_closed", and a user update and a trade leave the
stored entry intact. -/
theorem C1_close_month_idempotent_witness :
    post_close_month "2026-10" "2026-09" "t1" c1db = (c1db, .alreadyClosed "2026-09") ∧
    dictGet ((post_user "u" {} "2026-10" "2026-09" "t1" c1db).1).monthly_winners
      "2026-09" = some ⟨[], "t0"⟩ ∧
    dictGet ((record_trade "u" ⟨"win", none⟩ "t1" c1db).1).monthly_winners
      "2026-09" = some ⟨[], "t0"⟩ :=
  ⟨C1_close_month_idempotent.1 "2026-10" "2026-09" "t1" c1db (by decide),
   C1_close_month_idempotent.2.2.1 "u" {} "2026-10" "2026-09" "t1" c1db
     "2026-09" ⟨[], "t0"⟩ (by decide),
   C1_close_month_idempotent.2.2.2 "u" ⟨"win", none⟩ "t1" c1db
     "2026-09" ⟨[], "t0"⟩ (by decide)⟩

/-- C2 counterexample: the claim says a month with zero users at evaluation
time never gains a winners entry on either path, but the manual trigger
has no empty-podium guard — closing on the empty document stores an entry
with an empty podium for the previous month. -/
theorem C2_counterexample :
    emptyDb.users = [] ∧
    dictGet ((post_close_month "2026-10" "2026-09" "t0" emptyDb).1).monthly_winners
      "2026-09" = some ⟨[], "t0"⟩ :=
  ⟨rfl, by decide⟩

/-- C2 amended: for every ledger document whose users mapping is empty, the
automatic rollover path (user update) writes no monthly winners entry,
while the manual trigger — which lacks the empty-podium guard — stores an
entry with an empty podium for any previous month not already present. -/
theorem C2_empty_users_close :
    (∀ uid upd cm pm now db, db.users = [] →
      ((post_user uid upd cm pm now db).1).monthly_winners = db.monthly_winners) ∧
    (∀ cm pm now db, db.users = [] → dictGet db.monthly_winners pm = none →
      dictGet ((post_close_month cm pm now db).1).monthly_winners pm
        = some ⟨[], now⟩) := by
  constructor
  · intro uid upd cm pm now db hu
    rw [post_user_winners]
    unfold rollover
    by_cases h1 : db.last_month_closed = some cm
    · simp [h1]
    · by_cases h2 : (dictGet db.monthly_winners pm).isSome = true
      · simp [h1, h2]
      · have hpod : compute_podium_snapshot db.users 3 = [] := by
          rw [hu]
          rfl
        simp [h1, h2, hpod]
  · intro cm pm now db hu hn
    unfold post_close_month
    have h2 : ¬ (dictGet db.monthly_winners pm).isSome = true := by
      rw [hn]
      simp
    have hpod : compute_podium_snapshot db.users 3 = [] := by
      rw [hu]
      rfl
    simp only [h2, if_false, Bool.false_eq_true, hpod]
    exact dictGet_dictSet_self _ _ _

/-- C2 amended witness: on the empty document, a user update leaves the
winners mapping empty while a manual close creates the empty-podium
entry. -/
theorem C2_empty_users_close_witness :
    ((post_user "u" {} "2026-10" "2026-09" "t1" emptyDb).1).monthly_winners = [] ∧
    dictGet ((post_close_month "2026-10" "2026-09" "t1" emptyDb).1).monthly_winners
      "2026-09" = some ⟨[], "t1"⟩ :=
  ⟨C2_empty_users_close.1 "u" {} "2026-10" "2026-09" "t1" emptyDb rfl,
   C2_empty_users_close.2 "2026-10" "2026-09" "t1" emptyDb rfl rfl⟩

/-- C10: the read operations (leaderboard, user view, winners for a month,
latest winners) leave the persisted document untouched, and reading a
never-written user does not create a record for it. -/
theorem C10_reads_pure :
    (∀ limit now db, (get_leaderboard limit now db).1 = db) ∧
    (∀ uid db, (get_user uid db).1 = db) ∧
    (∀ m db, (get_winners m db).1 = db) ∧
    (∀ db, (get_latest_winners db).1 = db) ∧
    (∀ uid db, dictGet db.users uid = none →
      dictGet ((get_user uid db).1).users uid = none) :=
  ⟨get_leaderboard_fst, get_user_fst, get_winners_fst, get_latest_winners_fst,
   fun uid db h => by rw [get_user_fst]; exact h⟩

/-- C10 witness: reading an unknown user on the empty document changes
nothing and creates no record. -/
theorem C10_reads_pure_witness :
    dictGet ((get_user "nobody" emptyDb).1).users "nobody" = none :=
  C10_reads_pure.2.2.2.2 "nobody" emptyDb rfl

lemma ratTrunc_intCast (n : ℤ) : ratTrunc ((n : ℚ)) = n := by
  unfold ratTrunc
  by_cases h : (0 : ℚ) ≤ (n : ℚ)
  · rw [if_pos h, Int.floor_intCast]
  · rw [if_neg h, ← Int.cast_neg, Int.floor_intCast, neg_neg]

lemma ratTrunc_zero : ratTrunc 0 = 0 := by
  unfold ratTrunc
  rw [if_pos le_rfl, Int.floor_zero]

lemma round2_zero : round2 0 = 0 := by
  unfold round2
  rw [show (0 : ℚ) * 100 + 1 / 2 = 1 / 2 by ring, floor_half]
  norm_num

/-- C5: for every users mapping and every topN, the podium has length
`min topN (number of users)`, its entries are sorted non-increasing by
balance, its positions are the contiguous sequence `1..k`, and the sort is
stable: restricting the sorted array to any one balance value yields
exactly the insertion-ordered original entries with that balance (no
secondary key). -/
theorem C5_podium_shape :
    ∀ (users : List (String × UserRec)) (topN : ℕ),
      (compute_podium_snapshot users topN).length = min topN users.length ∧
      (compute_podium_snapshot users topN).Pairwise
        (fun a b => b.balance ≤ a.balance) ∧
      (compute_podium_snapshot users topN).map (fun e => e.position)
        = List.range' 1 (compute_podium_snapshot users topN).length ∧
      ∀ b : ℚ,
        (sortDescBy (fun x => x.2.2) (podiumArr users)).filter
            (fun x => decide (x.2.2 = b))
          = (podiumArr users).filter (fun x => decide (x.2.2 = b)) := by
  intro users topN
  refine ⟨?_, ?_, ?_, fun b => filter_sortDescBy _ b _⟩
  · unfold compute_podium_snapshot
    rw [length_posMap, List.length_take, length_sortDescBy]
    unfold podiumArr
    rw [List.length_map]
  · unfold compute_podium_snapshot
    apply pairwise_posMap
    exact (pairwise_sortDescBy (fun x => x.2.2) (podiumArr users)).sublist
      (List.take_sublist topN _)
  · unfold compute_podium_snapshot
    rw [posMap_positions, length_posMap]

/-- Record with a truthy non-numeric trades field. -/
def c6bad : UserRec := { trades := some (.str "x") }

/-- Record whose balance field is a non-numeric string but whose counters
are absent. -/
def c6wu : UserRec := { balance := some (.str "x") }

/-- C6 counterexample: `compute_user_metrics` is not total — on a record
whose trades field is the non-numeric string "x" the bare
`int(user_record.get("trades", 0) or 0)` raises (modelled as `none`),
contradicting "never raises on any user record". -/
theorem C6_counterexample : compute_user_metrics c6bad = none := by
  rfl

/-- C6 amended: `compute_user_metrics` returns a result — with missing or
non-numeric balance and period_start_balance fields falling back to the
coercion defaults — provided the trades and wins fields coerce to integers
after the falsy-to-zero fallback; a truthy non-numeric trades or wins
value (e.g. a non-numeric string) instead raises. -/
theorem C6_metrics_total :
    ∀ (u : UserRec) (t w : ℤ),
      pyInt (orZeroInt u.trades) = some t →
      pyInt (orZeroInt u.wins) = some w →
      ∃ m, compute_user_metrics u = some m ∧
        m.balance = round2 (getF u.balance START_BALANCE) ∧
        m.period_start_balance = round2 (getF u.period_start_balance START_BALANCE) := by
  intro u t w ht hw
  unfold compute_user_metrics
  rw [ht, hw]
  exact ⟨_, rfl, rfl, rfl⟩

/-- C6 witness: on a record whose balance is the non-numeric string "x"
and whose counters are absent, the metrics computation succeeds. -/
theorem C6_metrics_total_witness : (compute_user_metrics c6wu).isSome = true := by
  obtain ⟨m, hm, -, -⟩ := C6_metrics_total c6wu 0 0
    (by simp [c6wu, orZeroInt, pyInt, ratTrunc_zero])
    (by simp [c6wu, orZeroInt, pyInt, ratTrunc_zero])
  rw [hm]
  rfl

/-- Record with equal nonzero balance and baseline. -/
def c7u : UserRec := { balance := some (.num 6000), period_start_balance := some (.num 6000) }

/-- Record with a zero baseline. -/
def c7wu : UserRec := { balance := some (.num 4000), period_start_balance := some (.num 0) }

/-- C7 counterexample: performance equals 0.0 "exactly whenever" the
baseline coerces to 0 fails in the only-if direction — with balance and
baseline both 6000 the baseline coerces to 6000 ≠ 0, yet the formula
yields performance 0. -/
theorem C7_counterexample :
    (compute_user_metrics c7u).map (fun m => m.performance) = some 0 ∧
    getF c7u.period_start_balance START_BALANCE ≠ 0 := by
  constructor
  · simp only [compute_user_metrics, c7u, getF, pyFloat, orZeroInt, pyInt,
      ratTrunc_zero, Option.getD_some]
    norm_num [START_BALANCE, round2_zero]
  · simp only [c7u, getF, pyFloat, Option.getD_some]
    norm_num

/-- C7 amended: whenever the record's period_start_balance coerces to 0 the
returned performance is 0.0 (division guard), and otherwise it equals
`(balance - period_start_balance) / period_start_balance * 100` rounded to
2 decimal places (which may itself be 0, e.g. when balance equals the
baseline). -/
theorem C7_performance_formula :
    ∀ (u : UserRec) (m : Metrics), compute_user_metrics u = some m →
      (getF u.period_start_balance START_BALANCE = 0 → m.performance = 0) ∧
      (getF u.period_start_balance START_BALANCE ≠ 0 →
        m.performance = round2 ((getF u.balance START_BALANCE
            - getF u.period_start_balance START_BALANCE)
          / getF u.period_start_balance START_BALANCE * 100)) := by
  intro u m hm
  unfold compute_user_metrics at hm
  rcases ht : pyInt (orZeroInt u.trades) with _ | t
  · rw [ht] at hm
    exact absurd hm (by simp)
  · rw [ht] at hm
    rcases hw : pyInt (orZeroInt u.wins) with _ | w
    · rw [hw] at hm
      exact absurd hm (by simp)
    · rw [hw] at hm
      obtain rfl := (Option.some.inj hm).symm
      constructor
      · intro h0
        show round2 (if getF u.period_start_balance START_BALANCE = 0 then 0 else _) = 0
        rw [if_pos h0, round2_zero]
      · intro h0
        show round2 (if getF u.period_start_balance START_BALANCE = 0 then 0 else _) = _
        rw [if_neg h0]

/-- C7 witness: a zero baseline with balance 4000 produces performance 0
through the division guard. -/
theorem C7_performance_formula_witness :
    compute_user_metrics c7wu = some ⟨0, 0, 0, 0, 0, 4000⟩ ∧
    (⟨0, 0, 0, 0, 0, 4000⟩ : Metrics).performance = 0 := by
  have hm : compute_user_metrics c7wu = some ⟨0, 0, 0, 0, 0, 4000⟩ := by
    simp only [compute_user_metrics, c7wu, getF, pyFloat, orZeroInt, pyInt,
      ratTrunc_zero, Option.getD_some]
    norm_num [round2_zero]
    have h := round2_intCast 4000
    norm_num at h
    exact h
  exact ⟨hm, (C7_performance_formula c7wu ⟨0, 0, 0, 0, 0, 4000⟩ hm).1
    (by simp only [c7wu, getF, pyFloat, Option.getD_some])⟩

/-- Typed user record with a given balance, zero counters and the default
baseline. -/
def mkBalUser (b : ℚ) : UserRec :=
  { nickname := some (.str ""), balance := some (.num b), last_update := some .null,
    trades := some (.num 0), wins := some (.num 0),
    period_start_balance := some (.num 5000) }

/-- Three-user document with balances 5200, 4800, 5000. -/
def c8db : Ledger := ⟨[("a", mkBalUser 5200), ("b", mkBalUser 4800), ("c", mkBalUser 5000)], [], none⟩

lemma pyInt_orZero_num_zero : pyInt (orZeroInt (some (.num 0))) = some 0 := by
  simp [orZeroInt, pyTruthy, pyInt, ratTrunc_zero]

lemma compute_user_metrics_mkBalUser (b : ℚ) :
    compute_user_metrics (mkBalUser b)
      = some ⟨round2 ((b - 5000) / 5000 * 100), 0, 0, 0, 5000, round2 b⟩ := by
  simp only [compute_user_metrics, mkBalUser, getF, pyFloat, Option.getD_some,
    pyInt_orZero_num_zero]
  norm_num [round2_zero]
  have h := round2_intCast 5000
  norm_num at h
  exact h

/-- C8: whatever the integer limit (negative or above 1000 included), a
successful leaderboard response is sorted non-increasing by balance and
has at most `max 0 (min limit 1000)` entries; with limit 1 over balances
5200, 4800, 5000 it returns exactly the 5200 user. -/
theorem C8_leaderboard_clamped :
    (∀ (limit : ℤ) (now : String) (db : Ledger) (resp : LBResp),
      (get_leaderboard limit now db).2 = .ok resp →
      resp.leaderboard.Pairwise (fun a b => b.balance ≤ a.balance) ∧
      resp.leaderboard.length ≤ (max 0 (min limit 1000)).toNat) ∧
    (get_leaderboard 1 "t" c8db).2
      = .ok ⟨[⟨"a", .str "", 5200, 4, 0, 0⟩], "t"⟩ := by
  constructor
  · intro limit now db resp h
    unfold get_leaderboard at h
    split at h
    · exact absurd h (by simp)
    · cases h
      constructor
      · exact (pairwise_sortDescBy (fun e : LBEntry => e.balance) _).sublist
          (List.take_sublist _ _)
      · simp only [List.length_take]
        exact min_le_left _ _
  · have h52 : round2 (5200 : ℚ) = 5200 := by
      have h := round2_intCast 5200
      norm_num at h
      exact h
    have h48 : round2 (4800 : ℚ) = 4800 := by
      have h := round2_intCast 4800
      norm_num at h
      exact h
    have h50 : round2 (5000 : ℚ) = 5000 := by
      have h := round2_intCast 5000
      norm_num at h
      exact h
    have p52 : round2 ((4 : ℚ)) = 4 := by
      have h := round2_intCast 4
      norm_num at h
      exact h
    have p48 : round2 ((-4 : ℚ)) = -4 := by
      have h := round2_intCast (-4)
      norm_num at h
      exact h
    unfold get_leaderboard c8db
    simp only [List.mapM_cons, List.mapM_nil, compute_user_metrics_mkBalUser,
      Option.map_some, Option.bind_some, Option.bind_eq_bind]
    norm_num [h52, h48, h50, p52, p48, round2_zero, mkBalUser, sortDescBy,
      insertDescBy]

/-- C8 witness: the limit-1 response over balances 5200, 4800, 5000 is
sorted and within the clamp. -/
theorem C8_leaderboard_clamped_witness :
    ((⟨[⟨"a", .str "", 5200, 4, 0, 0⟩], "t"⟩ : LBResp)).leaderboard.Pairwise
      (fun a b => b.balance ≤ a.balance) ∧
    ((⟨[⟨"a", .str "", 5200, 4, 0, 0⟩], "t"⟩ : LBResp)).leaderboard.length
      ≤ (max 0 (min (1 : ℤ) 1000)).toNat :=
  C8_leaderboard_clamped.1 1 "t" c8db ⟨[⟨"a", .str "", 5200, 4, 0, 0⟩], "t"⟩
    C8_leaderboard_clamped.2

/-- C4: the user-update operation has partial-update semantics — for an
existing user record, every field of nickname, balance, trades, wins and
period_start_balance that is absent from the update keeps its stored
value (in particular a nickname-only update leaves balance, trades, wins
and period_start_balance untouched). -/
theorem C4_partial_update :
    ∀ (db : Ledger) (uid : String) (upd : UserUpdate) (cm pm now : String)
      (u0 : UserRec), dictGet db.users uid = some u0 →
      ∃ u1, dictGet ((post_user uid upd cm pm now db).1).users uid = some u1 ∧
        (upd.nickname = none → u1.nickname = u0.nickname) ∧
        (upd.balance = none → ∀ v, u0.balance = some v → u1.balance = some v) ∧
        (upd.trades = none → ∀ v, u0.trades = some v → u1.trades = some v) ∧
        (upd.wins = none → ∀ v, u0.wins = some v → u1.wins = some v) ∧
        (upd.period_start_balance = none →
          ∀ v, u0.period_start_balance = some v →
            u1.period_start_balance = some v) := by
  intro db uid upd cm pm now u0 h0
  rw [post_user_fst]
  have hu : dictGet (rollover cm pm now db).users uid = some u0 := by
    rw [rollover_users]
    exact h0
  refine ⟨_, by rw [hu]; exact dictGet_dictSet_self _ _ _, ?_, ?_, ?_, ?_, ?_⟩
  · intro hn
    simp [hu, ensureFields, applyUpdate, hn]
  · intro hn v hv
    simp [hu, ensureFields, applyUpdate, hn, hv]
  · intro hn v hv
    simp [hu, ensureFields, applyUpdate, hn, hv]
  · intro hn v hv
    simp [hu, ensureFields, applyUpdate, hn, hv]
  · intro hn v hv
    simp [hu, ensureFields, applyUpdate, hn, hv]

/-- Existing user for the C4 witness. -/
def c4db : Ledger :=
  ⟨[("u", { nickname := some (.str "Al"), balance := some (.num 4321),
            last_update := some .null, trades := some (.num 7),
            wins := some (.num 3), period_start_balance := some (.num 4000) })],
    [], none⟩

/-- C4 witness: posting only a nickname to an existing user preserves
balance, trades, wins and period_start_balance. -/
theorem C4_partial_update_witness :
    ∃ u1, dictGet ((post_user "u" { nickname := some "Bob" } "2026-10" "2026-09"
        "t1" c4db).1).users "u" = some u1 ∧
      u1.balance = some (.num 4321) ∧ u1.trades = some (.num 7) ∧
      u1.wins = some (.num 3) ∧ u1.period_start_balance = some (.num 4000) := by
  obtain ⟨u1, hget, -, hb, ht, hw, hp⟩ :=
    C4_partial_update c4db "u" { nickname := some "Bob" } "2026-10" "2026-09" "t1"
      { nickname := some (.str "Al"), balance := some (.num 4321),
        last_update := some .null, trades := some (.num 7),
        wins := some (.num 3), period_start_balance := some (.num 4000) } rfl
  exact ⟨u1, hget, hb rfl _ rfl, ht rfl _ rfl, hw rfl _ rfl, hp rfl _ rfl⟩

lemma pyInt_num_intCast (t : ℤ) : pyInt (.num ((t : ℚ))) = some t := by
  simp [pyInt, ratTrunc_intCast]

lemma pyInt_orZero_num (q : ℚ) : ∃ z, pyInt (orZeroInt (some (.num q))) = some z := by
  unfold orZeroInt
  dsimp only
  by_cases h : pyTruthy (.num q) = true
  · rw [if_pos h]
    exact ⟨ratTrunc q, rfl⟩
  · rw [if_neg h]
    exact ⟨ratTrunc 0, rfl⟩

lemma metrics_some_of_nums (u : UserRec) (q1 q2 : ℚ)
    (h1 : u.trades = some (.num q1)) (h2 : u.wins = some (.num q2)) :
    ∃ m, compute_user_metrics u = some m := by
  unfold compute_user_metrics
  rw [h1, h2]
  obtain ⟨z1, hz1⟩ := pyInt_orZero_num q1
  obtain ⟨z2, hz2⟩ := pyInt_orZero_num q2
  rw [hz1, hz2]
  exact ⟨_, rfl⟩

lemma record_trade_invalid (uid : String) (tr : TradeRecord) (now : String)
    (db : Ledger) (h : ¬(strLower tr.result = "win" ∨ strLower tr.result = "lose")) :
    record_trade uid tr now db
      = (db, .error (.http 400 "result must be \"win\" or \"lose\"")) := by
  unfold record_trade
  dsimp only
  rw [if_neg h]

lemma record_trade_valid_not_client (uid : String) (tr : TradeRecord) (now : String)
    (db : Ledger) (h : strLower tr.result = "win" ∨ strLower tr.result = "lose") :
    isClientError (record_trade uid tr now db).2 = false := by
  unfold record_trade
  dsimp only
  rw [if_pos h]
  rcases tradeApply (ensureFields ((dictGet db.users uid).getD defaultUser))
      (strLower tr.result) tr.amount now with _ | u4
  · rfl
  · dsimp only
    rcases compute_user_metrics u4 with _ | m
    · rfl
    · rfl

lemma tradeApply_nums (u : UserRec) (t w : ℤ) (b : ℚ) (res : String)
    (amt : Option ℚ) (now : String)
    (ht : u.trades = some (.num ((t : ℚ)))) (hw : u.wins = some (.num ((w : ℚ))))
    (hb : u.balance = some (.num b)) :
    tradeApply u res amt now = some
      { u with
        trades := some (.num ((t : ℚ) + 1))
        wins := some (.num (if res = "win" then (w : ℚ) + 1 else (w : ℚ)))
        balance := some (.num (match amt with
          | none => b
          | some a => round2 (if res = "win" then b + a else b - a)))
        last_update := some (.str now) } := by
  unfold tradeApply
  rw [ht, Option.getD_some, pyInt_num_intCast]
  by_cases hres : res = "win"
  · rcases amt with _ | a
    · simp [hres, hw, hb, pyInt_num_intCast, pyFloat]
    · simp [hres, hw, hb, pyInt_num_intCast, pyFloat]
  · rcases amt with _ | a
    · simp [hres, hw, hb, pyInt_num_intCast, pyFloat]
    · simp [hres, hw, hb, pyInt_num_intCast, pyFloat]

lemma pyInt_orZero_intCast (t : ℤ) :
    pyInt (orZeroInt (some (.num ((t : ℚ))))) = some t := by
  unfold orZeroInt
  dsimp only
  by_cases h : pyTruthy (.num ((t : ℚ))) = true
  · rw [if_pos h, pyInt_num_intCast]
  · rw [if_neg h]
    have ht0 : (t : ℚ) = 0 := by simpa [pyTruthy] using h
    have ht : t = 0 := by exact_mod_cast ht0
    subst ht
    simp [pyInt, ratTrunc_zero]

lemma compute_user_metrics_typed (nn lu : Option JVal) (b s : ℚ) (t w : ℤ)
    (hs : s ≠ 0) (ht : 0 < t) :
    compute_user_metrics
        ⟨nn, some (.num b), lu, some (.num ((t : ℚ))), some (.num ((w : ℚ))),
          some (.num s)⟩
      = some ⟨round2 ((b - s) / s * 100), round2 ((w : ℚ) / (t : ℚ) * 100), t, w,
          round2 s, round2 b⟩ := by
  unfold compute_user_metrics
  dsimp only
  rw [pyInt_orZero_intCast, pyInt_orZero_intCast]
  simp only [getF, pyFloat, Option.getD_some]
  rw [if_neg hs, if_neg (not_le.mpr ht)]

lemma compute_user_metrics_eval (nn lu : Option JVal) (b s qt qw : ℚ) (t w : ℤ)
    (hqt : qt = (t : ℚ)) (hqw : qw = (w : ℚ)) (hs : s ≠ 0) (ht : 0 < t) :
    compute_user_metrics
        ⟨nn, some (.num b), lu, some (.num qt), some (.num qw), some (.num s)⟩
      = some ⟨round2 ((b - s) / s * 100), round2 ((w : ℚ) / (t : ℚ) * 100), t, w,
          round2 s, round2 b⟩ := by
  subst hqt hqw
  exact compute_user_metrics_typed nn lu b s t w hs ht

/-- Record written back by a valid trade on a stored record with numeric
trades `t`, wins `w` and balance `b` (the effect asserted by C3). -/
def tradedUser (u0 : UserRec) (res : String) (amt : Option ℚ) (now : String)
    (t w : ℤ) (b : ℚ) : UserRec :=
  { nickname := u0.nickname
    balance := some (.num (match amt with
      | none => b
      | some a => round2 (if res = "win" then b + a else b - a)))
    last_update := some (.str now)
    trades := some (.num ((t : ℚ) + 1))
    wins := some (.num (if res = "win" then (w : ℚ) + 1 else (w : ℚ)))
    period_start_balance := some (u0.period_start_balance.getD (.num START_BALANCE)) }

/-- Stored record after the first (winning) trade of the C3 chain. -/
def c3u1 : UserRec :=
  ⟨some (.str ""), some (.num 5100), some (.str "t1"), some (.num 1),
    some (.num 1), some (.num 5000)⟩

/-- Stored record after the second (losing) trade of the C3 chain. -/
def c3u2 : UserRec :=
  ⟨some (.str ""), some (.num 5050), some (.str "t2"), some (.num 2),
    some (.num 1), some (.num 5000)⟩

/-- View returned by the first trade of the C3 chain. -/
def c3v1 : UserView := ⟨"u", .str "", 5100, 2, 100, 1, 1, 5000, .str "t1"⟩

/-- View returned by the second trade of the C3 chain. -/
def c3v2 : UserView := ⟨"u", .str "", 5050, 1, 50, 2, 1, 5000, .str "t2"⟩

lemma c3_first_trade :
    record_trade "u" ⟨"win", some 100⟩ "t1" emptyDb
      = (⟨[("u", c3u1)], [], none⟩, .ok c3v1) := by
  have hwin : strLower "win" = "win" := by decide
  have r5100 : round2 (5100 : ℚ) = 5100 := by
    have h := round2_intCast 5100
    norm_num at h
    exact h
  have r5000 : round2 (5000 : ℚ) = 5000 := by
    have h := round2_intCast 5000
    norm_num at h
    exact h
  have r2 : round2 (2 : ℚ) = 2 := by
    have h := round2_intCast 2
    norm_num at h
    exact h
  have r100 : round2 (100 : ℚ) = 100 := by
    have h := round2_intCast 100
    norm_num at h
    exact h
  have hed : ensureFields defaultUser = defaultUser := by
    simp [ensureFields, defaultUser]
  unfold record_trade
  dsimp only
  rw [show dictGet emptyDb.users "u" = (none : Option UserRec) from rfl,
    Option.getD_none, hed, hwin, if_pos (Or.inl rfl)]
  rw [tradeApply_nums defaultUser 0 0 5000 "win" (some 100) "t1"
    (by norm_num [defaultUser]) (by norm_num [defaultUser])
    (by norm_num [defaultUser, START_BALANCE])]
  dsimp only [defaultUser]
  simp only [reduceIte]
  rw [compute_user_metrics_eval _ _ _ _ _ _ 1 1 (by norm_num) (by norm_num)
    (by norm_num [START_BALANCE]) (by norm_num)]
  dsimp only
  norm_num [dictSet, mkView, c3u1, c3v1, emptyDb, START_BALANCE, r5100, r5000,
    r2, r100]

lemma c3_second_trade :
    record_trade "u" ⟨"lose", some 50⟩ "t2" ⟨[("u", c3u1)], [], none⟩
      = (⟨[("u", c3u2)], [], none⟩, .ok c3v2) := by
  have hlose : strLower "lose" = "lose" := by decide
  have r5050 : round2 (5050 : ℚ) = 5050 := by
    have h := round2_intCast 5050
    norm_num at h
    exact h
  have r5000 : round2 (5000 : ℚ) = 5000 := by
    have h := round2_intCast 5000
    norm_num at h
    exact h
  have r1 : round2 (1 : ℚ) = 1 := by
    have h := round2_intCast 1
    norm_num at h
    exact h
  have r50 : round2 (50 : ℚ) = 50 := by
    have h := round2_intCast 50
    norm_num at h
    exact h
  have hx : ¬(("lose" : String) = "win") := by decide
  have hed : ensureFields c3u1 = c3u1 := by
    simp [ensureFields, c3u1]
  unfold record_trade
  dsimp only
  rw [show dictGet (⟨[("u", c3u1)], [], none⟩ : Ledger).users "u" = some c3u1 from
    by simp [dictGet], Option.getD_some, hed, hlose,
    if_pos (Or.inr rfl)]
  rw [tradeApply_nums c3u1 1 1 5100 "lose" (some 50) "t2"
    (by norm_num [c3u1]) (by norm_num [c3u1]) (by norm_num [c3u1])]
  dsimp only [c3u1]
  rw [compute_user_metrics_eval _ _ _ _ _ _ 2 1 (by norm_num [hx]) (by norm_num [hx])
    (by norm_num) (by norm_num)]
  dsimp only
  norm_num [hx, dictSet, mkView, c3u2, c3v2, r5050, r5000, r1, r50]

/-- C3: recording a trade raises a client error exactly when the lowercased
result is neither "win" nor "lose", and then nothing is persisted; on a
valid result it increments trades by 1, increments wins only on a win, and
applies an optional amount to the balance (added on win, subtracted on
loss); from a fresh balance of 5000.00, a win of 100 then a loss of 50
yields balance 5050.00, trades 2, wins 1, win_rate 50.00. -/
theorem C3_trade_validation :
    (∀ (uid : String) (tr : TradeRecord) (now : String) (db : Ledger),
      isClientError (record_trade uid tr now db).2 = true ↔
        (strLower tr.result ≠ "win" ∧ strLower tr.result ≠ "lose")) ∧
    (∀ (uid : String) (tr : TradeRecord) (now : String) (db : Ledger),
      strLower tr.result ≠ "win" → strLower tr.result ≠ "lose" →
      record_trade uid tr now db
        = (db, .error (.http 400 "result must be \"win\" or \"lose\""))) ∧
    (∀ (db : Ledger) (uid : String) (tr : TradeRecord) (now : String)
      (u0 : UserRec) (t w : ℤ) (b : ℚ),
      dictGet db.users uid = some u0 →
      u0.trades = some (.num ((t : ℚ))) →
      u0.wins = some (.num ((w : ℚ))) →
      u0.balance = some (.num b) →
      (strLower tr.result = "win" ∨ strLower tr.result = "lose") →
      ∃ v, record_trade uid tr now db = ({ db with users := dictSet db.users uid (tradedUser u0 (strLower tr.result) tr.amount now t w b) }, .ok v)) ∧
    ((record_trade "u" ⟨"win", some 100⟩ "t1" emptyDb).2 = .ok c3v1 ∧
      (record_trade "u" ⟨"lose", some 50⟩ "t2"
        (record_trade "u" ⟨"win", some 100⟩ "t1" emptyDb).1).2 = .ok c3v2) := by
  refine ⟨?_, ?_, ?_, ?_⟩
  · intro uid tr now db
    by_cases hv : strLower tr.result = "win" ∨ strLower tr.result = "lose"
    · rw [record_trade_valid_not_client uid tr now db hv]
      constructor
      · intro hfalse
        exact absurd hfalse (by simp)
      · rintro ⟨h1, h2⟩
        rcases hv with h | h
        · exact absurd h h1
        · exact absurd h h2
    · rw [record_trade_invalid uid tr now db hv]
      have : isClientError
          ((db, Except.error (PyErr.http 400 "result must be \"win\" or \"lose\""))
            : Ledger × Except PyErr UserView).2 = true := by
        norm_num [isClientError]
      rw [this]
      simp only [true_iff]
      exact not_or.mp hv
  · intro uid tr now db h1 h2
    exact record_trade_invalid uid tr now db (not_or.mpr ⟨h1, h2⟩)
  · intro db uid tr now u0 t w b h0 ht hw hb hv
    unfold record_trade
    dsimp only
    rw [h0, Option.getD_some, if_pos hv]
    have h1t : (ensureFields u0).trades = some (.num ((t : ℚ))) := by
      simp [ensureFields, ht]
    have h1w : (ensureFields u0).wins = some (.num ((w : ℚ))) := by
      simp [ensureFields, hw]
    have h1b : (ensureFields u0).balance = some (.num b) := by
      simp [ensureFields, hb]
    rw [tradeApply_nums (ensureFields u0) t w b (strLower tr.result) tr.amount now
      h1t h1w h1b]
    dsimp only
    obtain ⟨m, hm⟩ := metrics_some_of_nums
      { ensureFields u0 with
          trades := some (.num ((t : ℚ) + 1)),
          wins := some (.num (if strLower tr.result = "win" then (w : ℚ) + 1 else (w : ℚ))),
          balance := some (.num (match tr.amount with
            | none => b
            | some a => round2 (if strLower tr.result = "win" then b + a else b - a))),
          last_update := some (.str now) }
      ((t : ℚ) + 1)
      (if strLower tr.result = "win" then (w : ℚ) + 1 else (w : ℚ)) rfl rfl
    rw [hm]
    dsimp only
    exact ⟨_, rfl⟩
  · constructor
    · rw [c3_first_trade]
    · rw [c3_first_trade]
      exact congrArg Prod.snd c3_second_trade

/-- C3 witness: a "draw" result is rejected as a client error with nothing
persisted (case-insensitively), a concrete "WIN" trade on an existing user
stores the incremented record, and the first chain trade returns the
expected view. -/
theorem C3_trade_validation_witness :
    isClientError ((record_trade "u" ⟨"draw", none⟩ "t" emptyDb).2) = true ∧
    record_trade "u" ⟨"Draw", none⟩ "t" emptyDb
      = (emptyDb, .error (.http 400 "result must be \"win\" or \"lose\"")) ∧
    (record_trade "u" ⟨"WIN", some 25⟩ "t3" ⟨[("u", c3u1)], [], none⟩).1
      = ⟨dictSet [("u", c3u1)] "u"
          (tradedUser c3u1 (strLower "WIN") (some 25) "t3" 1 1 5100), [], none⟩ ∧
    (record_trade "u" ⟨"win", some 100⟩ "t1" emptyDb).2 = .ok c3v1 := by
  refine ⟨?_, ?_, ?_, C3_trade_validation.2.2.2.1⟩
  · exact (C3_trade_validation.1 "u" ⟨"draw", none⟩ "t" emptyDb).mpr (by decide)
  · exact C3_trade_validation.2.1 "u" ⟨"Draw", none⟩ "t" emptyDb (by decide) (by decide)
  · obtain ⟨v, hv⟩ := C3_trade_validation.2.2.1 ⟨[("u", c3u1)], [], none⟩ "u"
      ⟨"WIN", some 25⟩ "t3" c3u1 1 1 5100 rfl (by norm_num [c3u1])
      (by norm_num [c3u1]) (by norm_num [c3u1]) (by decide)
    rw [hv]

lemma pyInt_num_natCast (n : ℕ) : pyInt (.num ((n : ℚ))) = some ((n : ℤ)) := by
  have hc : ((n : ℕ) : ℚ) = (((n : ℤ)) : ℚ) := by push_cast; ring
  rw [hc, pyInt_num_intCast]

lemma isNonnegIntJ_natCast (n : ℕ) : isNonnegIntJ (some (.num ((n : ℚ)))) = true := by
  simp only [isNonnegIntJ, Bool.and_eq_true, decide_eq_true_eq]
  exact ⟨by positivity, Rat.den_natCast n⟩

lemma isNonnegIntJ_intCast (n : ℤ) (h : 0 ≤ n) :
    isNonnegIntJ (some (.num ((n : ℚ)))) = true := by
  obtain ⟨m, rfl⟩ := Int.eq_ofNat_of_zero_le h
  have hc : (((m : ℕ) : ℤ) : ℚ) = ((m : ℕ) : ℚ) := by push_cast; ring
  rw [hc]
  exact isNonnegIntJ_natCast m

lemma isNonnegIntJ_iff (v : Option JVal) :
    isNonnegIntJ v = true ↔ ∃ n : ℕ, v = some (.num ((n : ℚ))) := by
  constructor
  · intro h
    rcases v with _ | jv
    · simp [isNonnegIntJ] at h
    · rcases jv with _ | b | q | s
      · simp [isNonnegIntJ] at h
      · simp [isNonnegIntJ] at h
      · simp only [isNonnegIntJ, Bool.and_eq_true, decide_eq_true_eq] at h
        obtain ⟨h0, hd⟩ := h
        have hq : (q.num : ℚ) = q := (Rat.den_eq_one_iff q).mp hd
        have hn : 0 ≤ q.num := Rat.num_nonneg.mpr h0
        refine ⟨q.num.toNat, ?_⟩
        have hcast : ((q.num.toNat : ℕ) : ℚ) = ((q.num : ℤ) : ℚ) := by
          exact_mod_cast congrArg (fun z : ℤ => (z : ℚ)) (Int.toNat_of_nonneg hn)
        rw [hcast, hq]
      · simp [isNonnegIntJ] at h
  · rintro ⟨n, rfl⟩
    exact isNonnegIntJ_natCast n

lemma tradeApply_trades_wins (u : UserRec) (res : String) (amt : Option ℚ)
    (now : String) (u4 : UserRec) (t w : ℕ)
    (ht : u.trades = some (.num ((t : ℚ)))) (hw : u.wins = some (.num ((w : ℚ))))
    (h4 : tradeApply u res amt now = some u4) :
    isNonnegIntJ u4.trades = true ∧ isNonnegIntJ u4.wins = true := by
  have hcast : ∀ k : ℕ, (((k : ℤ) : ℚ) + 1) = (((k + 1 : ℕ)) : ℚ) := by
    intro k
    push_cast
    ring
  unfold tradeApply at h4
  rw [ht, Option.getD_some, pyInt_num_natCast] at h4
  dsimp only at h4
  by_cases hres : res = "win"
  · rw [if_pos hres, hw, Option.getD_some, pyInt_num_natCast] at h4
    dsimp only at h4
    rcases amt with _ | a
    · dsimp only at h4
      obtain rfl := Option.some.inj h4
      constructor
      · rw [show (some (.num (((t : ℤ) : ℚ) + 1)) : Option JVal)
            = some (.num (((t + 1 : ℕ)) : ℚ)) from by rw [hcast]]
        exact isNonnegIntJ_natCast (t + 1)
      · rw [show (some (.num (((w : ℤ) : ℚ) + 1)) : Option JVal)
            = some (.num (((w + 1 : ℕ)) : ℚ)) from by rw [hcast]]
        exact isNonnegIntJ_natCast (w + 1)
    · dsimp only at h4
      rcases hb : pyFloat (u.balance.getD (.num START_BALANCE)) with _ | bb
      · rw [hb] at h4
        exact absurd h4 (by simp)
      · rw [hb] at h4
        dsimp only at h4
        obtain rfl := Option.some.inj h4
        constructor
        · rw [show (some (.num (((t : ℤ) : ℚ) + 1)) : Option JVal)
              = some (.num (((t + 1 : ℕ)) : ℚ)) from by rw [hcast]]
          exact isNonnegIntJ_natCast (t + 1)
        · rw [show (some (.num (((w : ℤ) : ℚ) + 1)) : Option JVal)
              = some (.num (((w + 1 : ℕ)) : ℚ)) from by rw [hcast]]
          exact isNonnegIntJ_natCast (w + 1)
  · rw [if_neg hres] at h4
    dsimp only at h4
    rcases amt with _ | a
    · dsimp only at h4
      obtain rfl := Option.some.inj h4
      constructor
      · rw [show (some (.num (((t : ℤ) : ℚ) + 1)) : Option JVal)
            = some (.num (((t + 1 : ℕ)) : ℚ)) from by rw [hcast]]
        exact isNonnegIntJ_natCast (t + 1)
      · rw [hw]
        exact isNonnegIntJ_natCast w
    · dsimp only at h4
      rcases hb : pyFloat (u.balance.getD (.num START_BALANCE)) with _ | bb
      · rw [hb] at h4
        exact absurd h4 (by simp)
      · rw [hb] at h4
        dsimp only at h4
        obtain rfl := Option.some.inj h4
        constructor
        · rw [show (some (.num (((t : ℤ) : ℚ) + 1)) : Option JVal)
              = some (.num (((t + 1 : ℕ)) : ℚ)) from by rw [hcast]]
          exact isNonnegIntJ_natCast (t + 1)
        · rw [hw]
          exact isNonnegIntJ_natCast w

lemma invC9_zero : isNonnegIntJ (some (.num (0 : ℚ))) = true := by
  have h := isNonnegIntJ_natCast 0
  norm_num at h
  exact h

lemma invC9_close (cm pm now : String) (db : Ledger) (h : InvC9 db) :
    InvC9 (post_close_month cm pm now db).1 := by
  unfold post_close_month
  by_cases hp : (dictGet db.monthly_winners pm).isSome = true
  · rw [if_pos hp]
    exact h
  · rw [if_neg hp]
    exact h

lemma invC9_record_trade (uid : String) (tr : TradeRecord) (now : String)
    (db : Ledger) (h : InvC9 db) : InvC9 (record_trade uid tr now db).1 := by
  unfold record_trade
  dsimp only
  by_cases hv : strLower tr.result = "win" ∨ strLower tr.result = "lose"
  · rw [if_pos hv]
    have hbase : ∃ (t w : ℕ),
        (ensureFields ((dictGet db.users uid).getD defaultUser)).trades
          = some (.num ((t : ℚ))) ∧
        (ensureFields ((dictGet db.users uid).getD defaultUser)).wins
          = some (.num ((w : ℚ))) := by
      rcases e : dictGet db.users uid with _ | u0
      · refine ⟨0, 0, ?_, ?_⟩ <;> norm_num [ensureFields, defaultUser]
      · have hp0 := h (uid, u0) (dictGet_mem _ _ _ e)
        dsimp only at hp0
        obtain ⟨t, htr⟩ := (isNonnegIntJ_iff _).mp hp0.1
        obtain ⟨w, hwr⟩ := (isNonnegIntJ_iff _).mp hp0.2
        exact ⟨t, w, by simp [ensureFields, htr], by simp [ensureFields, hwr]⟩
    obtain ⟨t, w, hbt, hbw⟩ := hbase
    rcases h4 : tradeApply (ensureFields ((dictGet db.users uid).getD defaultUser))
        (strLower tr.result) tr.amount now with _ | u4
    · exact h
    · have h44 := tradeApply_trades_wins _ _ _ _ u4 t w hbt hbw h4
      have hdb' : InvC9 { db with users := dictSet db.users uid u4 } := by
        intro p hp
        rcases mem_dictSet _ _ _ p hp with hpe | hpin
        · rw [hpe]
          exact h44
        · exact h p hpin
      dsimp only
      cases compute_user_metrics u4
      · exact hdb'
      · exact hdb'
  · rw [if_neg hv]
    exact h

lemma invC9_post_user (uid : String) (upd : UserUpdate) (cm pm now : String)
    (db : Ledger) (hTn : ∀ n, upd.trades = some n → 0 ≤ n)
    (hWn : ∀ n, upd.wins = some n → 0 ≤ n) (h : InvC9 db) :
    InvC9 (post_user uid upd cm pm now db).1 := by
  rw [post_user_fst]
  intro p hp
  rcases mem_dictSet _ _ _ p hp with hpe | hpin
  · rw [hpe]
    dsimp only
    simp only [ensureFields]
    have hroll : dictGet (rollover cm pm now db).users uid = dictGet db.users uid := by
      rw [rollover_users]
    rw [hroll]
    constructor
    · rcases hu : upd.trades with _ | n
      · simp only [applyUpdate, hu]
        rcases e : dictGet db.users uid with _ | u0
        · exact invC9_zero
        · rw [Option.getD_some]
          have hp0 := h (uid, u0) (dictGet_mem _ _ _ e)
          dsimp only at hp0
          obtain ⟨k, hk⟩ := (isNonnegIntJ_iff _).mp hp0.1
          rw [hk, Option.getD_some]
          exact isNonnegIntJ_natCast k
      · simp only [applyUpdate, hu]
        exact isNonnegIntJ_intCast n (hTn n hu)
    · rcases hu : upd.wins with _ | n
      · simp only [applyUpdate, hu]
        rcases e : dictGet db.users uid with _ | u0
        · exact invC9_zero
        · rw [Option.getD_some]
          have hp0 := h (uid, u0) (dictGet_mem _ _ _ e)
          dsimp only at hp0
          obtain ⟨k, hk⟩ := (isNonnegIntJ_iff _).mp hp0.2
          rw [hk, Option.getD_some]
          exact isNonnegIntJ_natCast k
      · simp only [applyUpdate, hu]
        exact isNonnegIntJ_intCast n (hWn n hu)
  · rw [rollover_users] at hpin
    exact h p hpin

/-- Update carrying a negative trades value. -/
def c9upd : UserUpdate := { trades := some (-1) }

/-- Document reached by posting a negative trades value to a fresh user. -/
def c9db : Ledger := (post_user "u1" c9upd "2026-10" "2026-09" "t" emptyDb).1

/-- The record stored by that update. -/
def c9rec : UserRec :=
  ⟨some (.str ""), some (.num START_BALANCE), some (.str "t"),
    some (.num ((-1 : ℤ) : ℚ)), some (.num ((0 : ℚ))), some (.num START_BALANCE)⟩

/-- C9 counterexample: the claim that every reachable document stores only
non-negative integer trades/wins counters is false — the update endpoint
stores any supplied integer verbatim, so one `post_user` call with
trades = -1 reaches a document whose stored trades is -1. -/
theorem C9_counterexample : Reachable c9db ∧ ¬ InvC9 c9db := by
  constructor
  · exact Reachable.step emptyDb c9db Reachable.init
      (Step.user "u1" c9upd "2026-10" "2026-09" "t" emptyDb)
  · intro h
    have hu : c9db.users = [("u1", c9rec)] := by
      show ((post_user "u1" c9upd "2026-10" "2026-09" "t" emptyDb).1).users = _
      rw [post_user_fst]
      dsimp only
      rw [rollover_users]
      norm_num [emptyDb, dictGet, dictSet, ensureFields, applyUpdate, defaultUser,
        c9upd, c9rec]
    have hm : ("u1", c9rec) ∈ c9db.users := by
      rw [hu]
      exact List.mem_cons_self _ _
    have hbad := (h ("u1", c9rec) hm).1
    dsimp only at hbad
    rw [show c9rec.trades = some (.num ((-1 : ℤ) : ℚ)) from rfl] at hbad
    simp only [isNonnegIntJ, Bool.and_eq_true, decide_eq_true_eq] at hbad
    have h0 := hbad.1
    norm_num at h0

/-- C9 amended: in every document reachable from the empty document when
user updates carry only non-negative trades/wins values (trade recording
and month closing unrestricted), every stored trades and wins field is a
non-negative integer; the unrestricted claim fails because the update
endpoint stores any supplied integer, including negative ones. -/
theorem C9_nonneg_counters : ∀ db : Ledger, ReachableN db → InvC9 db := by
  intro db h
  induction h with
  | init =>
    intro p hp
    simp [emptyDb] at hp
  | step db1 db2 hr hs ih =>
    cases hs with
    | user uid upd cm pm now _ htn hwn =>
      exact invC9_post_user _ _ _ _ _ _ htn hwn ih
    | trade uid tr now _ => exact invC9_record_trade _ _ _ _ ih
    | close cm pm now _ => exact invC9_close _ _ _ _ ih

/-- Non-negative update used to witness the amended C9. -/
def c9wupd : UserUpdate := { trades := some 2, wins := some 1 }

/-- Document reached by one non-negative user update. -/
def c9wdb : Ledger := (post_user "u2" c9wupd "2026-10" "2026-09" "t" emptyDb).1

/-- C9 witness: the invariant holds at the document reached by one
non-negative user update. -/
theorem C9_nonneg_counters_witness : InvC9 c9wdb :=
  C9_nonneg_counters c9wdb
    (ReachableN.step emptyDb c9wdb ReachableN.init
      (StepN.user "u2" c9wupd "2026-10" "2026-09" "t" emptyDb
        (fun n hn => by
          obtain rfl := Option.some.inj hn
          norm_num)
        (fun n hn => by
          obtain rfl := Option.some.inj hn
          norm_num)))
